import Mathlib

/-!
# Verification of the tokeninfo-api resolution core

Shallow embedding of the multi-source token-metadata resolution engine
(chain/address normalization, DefiLlama bulk source, on-chain reader,
CoinGecko symbol search, shared cache, batch coordinator) together with
proofs about its behaviour.

Modelling conventions:
* JS nullable strings are `Option String`; JS truthiness for such a value
  (`null`/`undefined`/`""` are falsy) is the `truthy` predicate.
* The network and the `ethers` library are an oracle (`Env`): each upstream
  request maps to an outcome (rejection, non-success response, unparseable
  payload, or a parsed payload), `ethers.getAddress` to an optional
  checksummed string (`none` models a thrown exception), and the two
  ERC-20 reads to optional strings (`none` models a rejected call, which
  the source's `.catch(() => null)` converts to `null`).
* The shared `lru-cache` instance is modelled, within its TTL and below its
  capacity bound (the regime every claim about it assumes), as an
  association list of namespaced string keys; `set` prepends, lookup takes
  the first match.  A log of network calls (one entry per actual upstream
  fetch, tagged with the adapter's cache key) is threaded alongside.
* An `async` function that can throw past its own boundary returns
  `Except St (α × St)`; one that catches everything returns `α × St`.
-/

namespace TokenInfo

/-- JS `toLowerCase()` (character-wise, as Lean's `String.toLower`). -/
def lowerStr (s : String) : String :=
  ⟨s.data.map Char.toLower⟩

/-- JS `toUpperCase()` (character-wise, as Lean's `String.toUpper`). -/
def upperStr (s : String) : String :=
  ⟨s.data.map Char.toUpper⟩

/-- JS truthiness of a nullable string: `null` and `""` are falsy. -/
def truthy : Option String → Bool
  | none => false
  | some s => s ≠ ""

/-- JS `a || b` on nullable strings. -/
def jsOr (a b : Option String) : Option String :=
  if truthy a then a else b

/-- JS `a || null`: collapses any falsy value to `null`. -/
def jsOrN (a : Option String) : Option String :=
  if truthy a then a else none

/-- One entry of DefiLlama's `coins` mapping (the fields the code reads). -/
structure TokenInfoRec where
  name : Option String
  symbol : Option String
  logo : Option String
  logo_url : Option String
deriving DecidableEq

/-- A parsed DefiLlama payload: a JSON object whose `coins` field may be
absent (`llamaData.coins?.[k]` then yields `undefined`). -/
structure LlamaJson where
  coins : Option (List (String × TokenInfoRec))
deriving DecidableEq

/-- One coin of a CoinGecko `/search` payload (the fields the code reads). -/
structure CGCoin where
  id : Option String
  symbol : Option String
  name : Option String
  large : Option String
  thumb : Option String
deriving DecidableEq

/-- A parsed CoinGecko `/search` payload. -/
structure CGSearch where
  coins : Option (List CGCoin)
deriving DecidableEq

/-- The record `fetchFromCoinGeckoBySymbol` builds and caches. -/
structure CGResult where
  id : Option String
  symbol : Option String
  name : Option String
  image : Option String
deriving DecidableEq

/-- The record `fetchOnChainNameSymbol` builds and caches. -/
structure OnChainRec where
  name : Option String
  symbol : Option String
deriving DecidableEq

/-- Outcome of one HTTP fetch: the request rejects, the response is
non-success (`!res.ok`), `res.json()` throws, or a payload is parsed. -/
inductive FetchOutcome (α : Type) where
  | reject
  | notOk
  | badJson
  | ok (payload : α)
deriving DecidableEq

/-- The final emitted token record. -/
structure Token where
  id : String
  symbol : Option String
  name : Option String
  image : Option String
  contractAddress : String
deriving DecidableEq

/-- Values stored in the shared cache (the JS cache is untyped; keys are
namespaced `llama:` / `cg:` / `onchain:`, so each namespace only ever holds
its own variant). -/
inductive CacheVal where
  | llamaV (j : LlamaJson)
  | cgV (r : CGResult)
  | onchainV (r : OnChainRec)
deriving DecidableEq

/-- The world outside the program: upstream responses and the `ethers`
library, per argument.  A fixed `Env` models a deterministic network. -/
structure Env where
  llama : String → List String → FetchOutcome LlamaJson
  cg : String → FetchOutcome CGSearch
  ctorOk : String → Bool
  onchainName : String → Option String
  onchainSym : String → Option String
  getAddress : String → Option String

/-- Mutable program state: the shared cache plus a log of upstream fetches
actually performed (each entry is the issuing adapter's cache key). -/
structure St where
  cache : List (String × CacheVal)
  calls : List String
deriving DecidableEq

/-- First-match association-list lookup (JS object / cache lookup). -/
def assocFind {α : Type} : List (String × α) → String → Option α
  | [], _ => none
  | (k, v) :: rest, key => if k = key then some v else assocFind rest key

/-- `cache.get` within TTL. -/
def St.find (st : St) (key : String) : Option CacheVal :=
  assocFind st.cache key

/-- `cache.set` (within capacity). -/
def cacheSet (st : St) (key : String) (v : CacheVal) : St :=
  { st with cache := (key, v) :: st.cache }

/-- Record that an upstream fetch was issued for `key`. -/
def logCall (st : St) (key : String) : St :=
  { st with calls := st.calls ++ [key] }

/-- The initial (fresh-process) state: empty cache, no calls. -/
def st0 : St := ⟨[], []⟩

/-! ## Chain and address normalization (`CHAIN_MAP`, `resolveChainSlug`,
`normalizeAddress`) -/

/-- The static chain alias table. -/
def CHAIN_MAP : List (String × String) :=
  [("1", "ethereum"), ("ethereum", "ethereum"),
   ("137", "polygon"), ("polygon", "polygon"),
   ("56", "bsc"), ("bsc", "bsc"),
   ("42161", "arbitrum"), ("arbitrum", "arbitrum"),
   ("10", "optimism"), ("optimism", "optimism"),
   ("43114", "avalanche"), ("avax", "avalanche"),
   ("8453", "base"), ("base", "base"),
   ("250", "fantom"), ("fantom", "fantom")]

/-- `resolveChainSlug`: falsy input defaults to `"ethereum"`; otherwise the
lowercased input is looked up in `CHAIN_MAP` and passes through unchanged
when absent (`CHAIN_MAP[key] || key`). -/
def resolveChainSlug (chainInput : Option String) : String :=
  if truthy chainInput then
    let key := lowerStr (chainInput.getD "")
    (assocFind CHAIN_MAP key).getD key
  else "ethereum"

/-- `normalizeAddress`: `ethers.getAddress` in a `try`, falling back to the
lowercased input when it throws. -/
def normalizeAddress (env : Env) (addr : String) : String :=
  match env.getAddress addr with
  | some a => a
  | none => lowerStr addr

/-! ## Cache keys -/

/-- The bulk source's cache key: `` `llama:${chainSlug}:${addresses.join(",")}` ``. -/
def llamaKey (chainSlug : String) (addresses : List String) : String :=
  "llama:" ++ chainSlug ++ ":" ++ String.intercalate "," addresses

/-- The symbol-search cache key: `` `cg:${symbol.toLowerCase()}` ``. -/
def cgKey (symbol : String) : String :=
  "cg:" ++ lowerStr symbol

/-- The on-chain source's cache key: `` `onchain:${address.toLowerCase()}` ``. -/
def ocKey (address : String) : String :=
  "onchain:" ++ lowerStr address

/-- Coerce a cached value read under a `llama:` key (the other variants are
unreachable because namespaces are disjoint). -/
def toLlama : CacheVal → LlamaJson
  | .llamaV j => j
  | _ => { coins := none }

/-- Coerce a cached value read under a `cg:` key. -/
def toCG : CacheVal → Option CGResult
  | .cgV r => some r
  | _ => none

/-- Coerce a cached value read under an `onchain:` key. -/
def toOC : CacheVal → OnChainRec
  | .onchainV r => r
  | _ => ⟨none, none⟩

/-! ## The three source adapters -/

/-- `fetchFromDefiLlama`: serves from cache, otherwise fetches; a
non-success response yields `{ coins: {} }` uncached; a request rejection
or an unparseable payload throws past the adapter (`Except.error`, carrying
the state as of the throw); a parsed payload is cached and returned. -/
def fetchFromDefiLlama (env : Env) (st : St) (chainSlug : String)
    (addresses : List String) : Except St (LlamaJson × St) :=
  let key := llamaKey chainSlug addresses
  match st.find key with
  | some v => .ok (toLlama v, st)
  | none =>
    let st1 := logCall st key
    match env.llama chainSlug addresses with
    | .reject => .error st1
    | .notOk => .ok ({ coins := some [] }, st1)
    | .badJson => .error st1
    | .ok j => .ok (j, cacheSet st1 key (.llamaV j))

/-- `data.coins.find(c => c.symbol?.toLowerCase() === symbol.toLowerCase())
|| data.coins[0]`, or `none` when the list is empty (the code's
`length > 0` guard). -/
def pickCoin (coins : List CGCoin) (symbol : String) : Option CGCoin :=
  match coins with
  | [] => none
  | c0 :: _ =>
    some ((coins.find? (fun c =>
      match c.symbol with
      | some t => lowerStr t = lowerStr symbol
      | none => false)).getD c0)

/-- `fetchFromCoinGeckoBySymbol`: serves from cache, otherwise fetches;
every failure (rejection, non-success, unparseable payload, missing or
empty `coins`) is absorbed and yields `null`; a match is cached under the
lowercased symbol and returned. -/
def fetchFromCoinGeckoBySymbol (env : Env) (st : St) (symbol : String) :
    Option CGResult × St :=
  let key := cgKey symbol
  match st.find key with
  | some v => (toCG v, st)
  | none =>
    let st1 := logCall st key
    match env.cg symbol with
    | .ok data =>
      match data.coins with
      | some coins =>
        match pickCoin coins symbol with
        | some m =>
          let result : CGResult :=
            { id := m.id, symbol := m.symbol.map lowerStr,
              name := m.name, image := jsOrN (jsOr m.large m.thumb) }
          (some result, cacheSet st1 key (.cgV result))
        | none => (none, st1)
      | none => (none, st1)
    | _ => (none, st1)

/-- `fetchOnChainNameSymbol`: serves from cache, otherwise constructs the
contract and performs the two reads; each read's rejection is converted to
`null` by its `.catch` (so `Promise.allSettled` always fulfills both), and
the record — even all-null — is cached; only a contract-construction throw
skips the fetch and the cache write, yielding the all-null record. -/
def fetchOnChainNameSymbol (env : Env) (st : St) (address : String) :
    OnChainRec × St :=
  let key := ocKey address
  match st.find key with
  | some v => (toOC v, st)
  | none =>
    if env.ctorOk address then
      let st1 := logCall st key
      let r : OnChainRec :=
        { name := env.onchainName address, symbol := env.onchainSym address }
      (r, cacheSet st1 key (.onchainV r))
    else
      ({ name := none, symbol := none }, st)

/-! ## Output formatting (`formatTokenOutput`) -/

/-- `String.replace(/\s+/g, "-")`: each maximal whitespace run becomes one
hyphen.  `inRun` records whether the previous character was whitespace. -/
def collapseWsAux : Bool → List Char → List Char
  | _, [] => []
  | inRun, c :: cs =>
    if c.isWhitespace then
      if inRun then collapseWsAux true cs
      else '-' :: collapseWsAux true cs
    else c :: collapseWsAux false cs

/-- `name.replace(/\s+/g, "-")` on a string. -/
def collapseWs (s : String) : String :=
  ⟨collapseWsAux false s.data⟩

/-- `formatTokenOutput(rawName, rawSymbol, imageUrl, contractAddress)`. -/
def formatTokenOutput (env : Env) (rawName rawSymbol imageUrl : Option String)
    (contractAddress : String) : Token :=
  let symbol := if truthy rawSymbol then rawSymbol.map lowerStr else none
  let name :=
    if truthy rawName then rawName
    else if truthy symbol then symbol.map upperStr else none
  let id :=
    if truthy name then collapseWs (lowerStr (name.getD ""))
    else lowerStr ((jsOr symbol (some contractAddress)).getD "")
  { id := id, symbol := symbol, name := name, image := jsOrN imageUrl,
    contractAddress := normalizeAddress env contractAddress }

/-! ## Per-address orchestration and the batch coordinator (`handleBatch`) -/

/-- `llamaData.coins?.[`${chainSlug}:${addr}`] || {}`. -/
def seedTokenInfo (llamaData : LlamaJson) (chainSlug addr : String) :
    TokenInfoRec :=
  match llamaData.coins with
  | some m => (assocFind m (chainSlug ++ ":" ++ addr)).getD ⟨none, none, none, none⟩
  | none => ⟨none, none, none, none⟩

/-- The on-chain step of the per-address merge: consulted exactly when
`!name || !symbol`; each on-chain field fills only a falsy field. -/
def onchainFill (env : Env) (st : St) (name symbol : Option String)
    (addr : String) : (Option String × Option String) × St :=
  if !truthy name || !truthy symbol then
    let r := fetchOnChainNameSymbol env st addr
    ((if !truthy name && truthy r.1.name then r.1.name else name,
      if !truthy symbol && truthy r.1.symbol then r.1.symbol else symbol), r.2)
  else ((name, symbol), st)

/-- The symbol-search step of the per-address merge: consulted exactly when
`!image && symbol`; fills `image` from a truthy match image, and `name`
only when still falsy.  Returns `(name, image)`. -/
def cgFill (env : Env) (st : St) (name image symbol : Option String) :
    (Option String × Option String) × St :=
  if !truthy image && truthy symbol then
    let r := fetchFromCoinGeckoBySymbol env st (symbol.getD "")
    match r.1 with
    | some cgData =>
      ((if !truthy name && truthy cgData.name then cgData.name else name,
        if truthy cgData.image then cgData.image else image), r.2)
    | none => ((name, image), r.2)
  else ((name, image), st)

/-- The body of `handleBatch`'s per-address loop. -/
def resolveOne (env : Env) (chainSlug : String) (llamaData : LlamaJson)
    (st : St) (addr : String) : Token × St :=
  let tokenInfo := seedTokenInfo llamaData chainSlug addr
  let name0 := jsOrN (jsOr tokenInfo.name tokenInfo.symbol)
  let symbol0 := jsOrN tokenInfo.symbol
  let image0 := jsOrN (jsOr tokenInfo.logo tokenInfo.logo_url)
  let o := onchainFill env st name0 symbol0 addr
  let c := cgFill env o.2 o.1.1 image0 o.1.2
  (formatTokenOutput env c.1.1 o.1.2 c.1.2 addr, c.2)

/-- The per-address loop over the (already lowercased) address list. -/
def resolveList (env : Env) (chainSlug : String) (llamaData : LlamaJson)
    (st : St) : List String → List Token × St
  | [] => ([], st)
  | a :: rest =>
    let p := resolveOne env chainSlug llamaData st a
    let q := resolveList env chainSlug llamaData p.2 rest
    (p.1 :: q.1, q.2)

/-- `handleBatch(addresses, chainInput)`: resolve the chain, lowercase the
addresses, fetch the bulk payload once (a thrown bulk fetch is caught and
leaves `llamaData = { coins: {} }`), then run the per-address loop. -/
def handleBatch (env : Env) (st : St) (addresses : List String)
    (chainInput : Option String) : List Token × St :=
  let chainSlug := resolveChainSlug chainInput
  let normalized := addresses.map lowerStr
  match fetchFromDefiLlama env st chainSlug normalized with
  | .ok (j, st1) => resolveList env chainSlug j st1 normalized
  | .error st1 => resolveList env chainSlug { coins := some [] } st1 normalized

/-! ## Concrete environments and states used to instantiate theorems -/

/-- A world where every upstream fails closed: both HTTP sources answer
with a non-success status, contract construction throws, and
`ethers.getAddress` throws on every input. -/
def envPlain : Env :=
  { llama := fun _ _ => .notOk, cg := fun _ => .notOk, ctorOk := fun _ => false,
    onchainName := fun _ => none, onchainSym := fun _ => none,
    getAddress := fun _ => none }

/-- As `envPlain`, but `ethers.getAddress` checksums the single address
`"0xab"`. -/
def envCk : Env :=
  { envPlain with getAddress := fun a => if a = "0xab" then some "0xAB" else none }

/-- As `envPlain`, but the bulk-source request rejects. -/
def envRej : Env :=
  { envPlain with llama := fun _ _ => .reject }

/-- As `envPlain`, but the bulk-source response body is unparseable. -/
def envBad : Env :=
  { envPlain with llama := fun _ _ => .badJson }

/-- As `envPlain`, but contracts construct and both ERC-20 reads reject. -/
def envOcNull : Env :=
  { envPlain with ctorOk := fun _ => true }

/-- A CoinGecko coin used by the successful world below. -/
def cgCoinTok : CGCoin :=
  { id := some "token", symbol := some "TOK", name := some "Token",
    large := some "img", thumb := none }

/-- A world where every upstream succeeds: the bulk source parses (to an
empty mapping), the symbol search always finds one matching coin, and both
ERC-20 reads return values. -/
def envOk : Env :=
  { llama := fun _ _ => .ok ⟨some []⟩,
    cg := fun _ => .ok ⟨some [cgCoinTok]⟩,
    ctorOk := fun _ => true,
    onchainName := fun _ => some "Token", onchainSym := fun _ => some "TOK",
    getAddress := fun _ => none }

/-- A state whose cache holds a bulk-source payload for one batch. -/
def stYes : St := ⟨[("llama:ethereum:0xa", .llamaV ⟨some []⟩)], []⟩

/-! ## Predicates used by the cache-idempotence development -/

/-- Cache inclusion: every entry of `c₁` is present, with the same value,
in `c₂`. -/
def SubCache (c₁ c₂ : List (String × CacheVal)) : Prop :=
  ∀ k v, assocFind c₁ k = some v → assocFind c₂ k = some v

/-- Every key ever fetched is cached, and no key was fetched twice. -/
def GoodSt (st : St) : Prop :=
  st.calls.Nodup ∧ ∀ k ∈ st.calls, (assocFind st.cache k).isSome = true

/-- The bulk source always returns a parseable payload. -/
def LlamaAlwaysParses (env : Env) : Prop :=
  ∀ slug addrs, ∃ j, env.llama slug addrs = .ok j

/-- The symbol search always returns a payload with a nonempty coin list
(so the adapter always caches a match). -/
def CgAlwaysMatches (env : Env) : Prop :=
  ∀ s, ∃ d, env.cg s = .ok d ∧ ∃ c0 cs, d.coins = some (c0 :: cs)

/-- Contract construction never throws. -/
def CtorAlwaysOk (env : Env) : Prop :=
  ∀ a, env.ctorOk a = true

/-! ## Helper lemmas -/

@[simp]
theorem lowerStr_eq_empty_iff (s : String) : lowerStr s = "" ↔ s = "" := by
  cases s with
  | mk l => simp [lowerStr, String.ext_iff]

@[simp]
theorem upperStr_eq_empty_iff (s : String) : upperStr s = "" ↔ s = "" := by
  cases s with
  | mk l => simp [upperStr, String.ext_iff]

@[simp]
theorem truthy_none : truthy none = false := rfl

@[simp]
theorem truthy_some (s : String) : truthy (some s) = !decide (s = "") := by
  simp [truthy]

@[simp]
theorem truthy_map_lowerStr (o : Option String) :
    truthy (o.map lowerStr) = truthy o := by
  cases o with
  | none => rfl
  | some s => simp [truthy]

@[simp]
theorem truthy_map_upperStr (o : Option String) :
    truthy (o.map upperStr) = truthy o := by
  cases o with
  | none => rfl
  | some s => simp [truthy]

/-! ## Claim theorems -/

/-- **C8**: chain resolution is total: absent input yields `"ethereum"`;
an input found in the alias table (numeric id or alias, case-insensitively
via lowercasing) yields the canonical slug (`"137"` yields `"polygon"`);
any unknown non-empty input is returned as itself lowercased. -/
theorem chain_resolution_total (s v : String) :
    resolveChainSlug none = "ethereum"
    ∧ resolveChainSlug (some "137") = "polygon"
    ∧ (assocFind CHAIN_MAP (lowerStr s) = some v → resolveChainSlug (some s) = v)
    ∧ (s ≠ "" → assocFind CHAIN_MAP (lowerStr s) = none →
        resolveChainSlug (some s) = lowerStr s) := by
  refine ⟨rfl, by decide, ?_, ?_⟩
  · intro h
    by_cases hs : s = ""
    · subst hs
      have : assocFind CHAIN_MAP (lowerStr "") = none := by decide
      rw [this] at h
      exact Option.noConfusion h
    · simp [resolveChainSlug, truthy, hs, h]
  · intro hs h
    simp [resolveChainSlug, truthy, hs, h]

/-- Witness for C8: a table alias (case-insensitive) and an unknown
identifier, resolved through `chain_resolution_total`. -/
theorem chain_resolution_total_witness :
    resolveChainSlug (some "POLYGON") = "polygon"
    ∧ resolveChainSlug (some "zora-net") = "zora-net" :=
  ⟨(chain_resolution_total "POLYGON" "polygon").2.2.1 (by decide),
   ((chain_resolution_total "zora-net" "x").2.2.2 (by decide) (by decide)).trans
     (by decide)⟩

/-- **C9**: address normalization is total: when `ethers.getAddress`
returns a checksummed form the normalizer returns it, and when it throws
(any malformation) the normalizer returns the lowercased input; no input
escapes these two outcomes. -/
theorem normalize_total (env : Env) (a : String) :
    (∀ c, env.getAddress a = some c → normalizeAddress env a = c)
    ∧ (env.getAddress a = none → normalizeAddress env a = lowerStr a) := by
  constructor
  · intro c h; simp [normalizeAddress, h]
  · intro h; simp [normalizeAddress, h]

/-- Witness for C9: a checksummable address and a malformed one. -/
theorem normalize_total_witness :
    normalizeAddress envCk "0xab" = "0xAB"
    ∧ normalizeAddress envPlain "Not-An-Address" = "not-an-address" :=
  ⟨(normalize_total envCk "0xab").1 "0xAB" (by decide),
   ((normalize_total envPlain "Not-An-Address").2 rfl).trans (by decide)⟩

/-- **C4 counterexample**: the bulk-source cache key is built from the
address list in input order, not sorted, so the same set of addresses in
two orders yields two distinct cache keys. -/
theorem llama_key_order_sensitive :
    llamaKey "ethereum" ["0xa", "0xb"] ≠ llamaKey "ethereum" ["0xb", "0xa"] := by
  decide

/-- **C4 (amended)**: the bulk-source cache key is the chain slug together
with the comma-joined address list in input order, and a cached entry under
that key is served without a fetch. -/
theorem llama_key_shape (env : Env) (st : St) (chainSlug : String)
    (addrs : List String) (v : CacheVal) :
    llamaKey chainSlug addrs
      = "llama:" ++ chainSlug ++ ":" ++ String.intercalate "," addrs
    ∧ (st.find (llamaKey chainSlug addrs) = some v →
        fetchFromDefiLlama env st chainSlug addrs = .ok (toLlama v, st)) := by
  refine ⟨rfl, fun h => ?_⟩
  simp [fetchFromDefiLlama, h]

/-- Witness for C4: a cached bulk payload is served from the cache. -/
theorem llama_key_shape_witness :
    fetchFromDefiLlama envPlain stYes "ethereum" ["0xa"] = .ok (⟨some []⟩, stYes) :=
  (llama_key_shape envPlain stYes "ethereum" ["0xa"] (.llamaV ⟨some []⟩)).2 (by decide)

/-- **C7 counterexample**: with no name and symbol `"wrapped btc"`, the
emitted id is `"wrapped-btc"` (the symbol is routed through the
name-defaulting branch and slugified), not the lowercased symbol
`"wrapped btc"` the claim requires. -/
theorem id_symbol_branch_hyphenates :
    (formatTokenOutput envPlain none (some "wrapped btc") none "0xc").id
        = "wrapped-btc"
    ∧ (formatTokenOutput envPlain none (some "wrapped btc") none "0xc").id
        ≠ "wrapped btc" :=
  ⟨by decide, by decide⟩

/-- **C7 (amended)**: the emitted id is a pure function of
`(name, symbol, address)` with three branches: a truthy name yields the
lowercased name with whitespace runs hyphenated; otherwise a truthy symbol
yields the symbol lowercased, uppercased (the name default) and lowercased
again, with whitespace runs hyphenated; otherwise the lowercased address. -/
theorem id_derivation (env : Env) (rawName rawSymbol imageUrl : Option String)
    (addr : String) :
    (truthy rawName = true →
      (formatTokenOutput env rawName rawSymbol imageUrl addr).id
        = collapseWs (lowerStr (rawName.getD "")))
    ∧ (truthy rawName = false → truthy rawSymbol = true →
      (formatTokenOutput env rawName rawSymbol imageUrl addr).id
        = collapseWs (lowerStr (upperStr (lowerStr (rawSymbol.getD "")))))
    ∧ (truthy rawName = false → truthy rawSymbol = false →
      (formatTokenOutput env rawName rawSymbol imageUrl addr).id
        = lowerStr addr) := by
  refine ⟨fun h1 => ?_, fun h1 h2 => ?_, fun h1 h2 => ?_⟩
  · simp [formatTokenOutput, h1]
  · cases rawSymbol with
    | none => simp [truthy] at h2
    | some s =>
      have hs : s ≠ "" := by simpa [truthy] using h2
      simp [formatTokenOutput, h1, hs]
  · simp [formatTokenOutput, h1, h2, jsOr]

/-- Witness for C7: all three id branches at concrete inputs. -/
theorem id_derivation_witness :
    (formatTokenOutput envPlain (some "USD Coin") (some "USDC") none "0xc").id
        = "usd-coin"
    ∧ (formatTokenOutput envPlain none (some "usdc") none "0xc").id = "usdc"
    ∧ (formatTokenOutput envPlain none none none "0xC").id = "0xc" :=
  ⟨((id_derivation envPlain (some "USD Coin") (some "USDC") none "0xc").1
      (by decide)).trans (by decide),
   ((id_derivation envPlain none (some "usdc") none "0xc").2.1 (by decide)
      (by decide)).trans (by decide),
   ((id_derivation envPlain none none none "0xC").2.2 (by decide)
      (by decide)).trans (by decide)⟩

/-- The `contractAddress` of every resolved record is the normalized form
of the address the loop body was given. -/
theorem resolveOne_contractAddress (env : Env) (slug : String) (j : LlamaJson)
    (st : St) (a : String) :
    ((resolveOne env slug j st a).1).contractAddress = normalizeAddress env a := rfl

/-- **C2**: the orchestrator consults the on-chain source exactly when the
seeded name or symbol is still falsy; the on-chain result fills only the
falsy field(s); a field seeded truthy by the bulk source is never replaced. -/
theorem onchain_merge (env : Env) (st : St) (name symbol : Option String)
    (addr : String) :
    (truthy name = true → truthy symbol = true →
      onchainFill env st name symbol addr = ((name, symbol), st))
    ∧ (¬(truthy name = true ∧ truthy symbol = true) →
      onchainFill env st name symbol addr =
        (((if truthy name then name
            else if truthy (fetchOnChainNameSymbol env st addr).1.name
            then (fetchOnChainNameSymbol env st addr).1.name else name),
          (if truthy symbol then symbol
            else if truthy (fetchOnChainNameSymbol env st addr).1.symbol
            then (fetchOnChainNameSymbol env st addr).1.symbol else symbol)),
        (fetchOnChainNameSymbol env st addr).2))
    ∧ (truthy name = true → (onchainFill env st name symbol addr).1.1 = name)
    ∧ (truthy symbol = true → (onchainFill env st name symbol addr).1.2 = symbol) := by
  refine ⟨fun h1 h2 => ?_, fun h => ?_, fun h1 => ?_, fun h2 => ?_⟩
  · simp [onchainFill, h1, h2]
  · cases hn : truthy name <;> cases hs : truthy symbol
    · simp [onchainFill, hn, hs]
    · simp [onchainFill, hn, hs]
    · simp [onchainFill, hn, hs]
    · exact absurd ⟨hn, hs⟩ h
  · cases hs : truthy symbol <;> simp [onchainFill, h1, hs]
  · cases hn : truthy name <;> simp [onchainFill, h2, hn]

/-- Witness for C2: both fields known skips the source; a known name
survives an on-chain consult; a doubly-unknown pair takes the consult path. -/
theorem onchain_merge_witness :
    onchainFill envPlain st0 (some "N") (some "S") "0xa" = ((some "N", some "S"), st0)
    ∧ (onchainFill envPlain st0 (some "N") none "0xa").1.1 = some "N"
    ∧ onchainFill envPlain st0 none none "0xa" = ((none, none), st0) :=
  ⟨(onchain_merge envPlain st0 (some "N") (some "S") "0xa").1 (by decide) (by decide),
   (onchain_merge envPlain st0 (some "N") none "0xa").2.2.1 (by decide),
   ((onchain_merge envPlain st0 none none "0xa").2.1 (by decide)).trans (by decide)⟩

/-- **C10**: when the contract constructs and both reads fail, the on-chain
source still caches the all-null record under `onchain:<lowercased addr>`,
and a subsequent lookup is served from that cache entry with no state
change (no new network call). -/
theorem onchain_failure_cached (env : Env) (st : St) (a : String)
    (hmiss : st.find (ocKey a) = none) (hctor : env.ctorOk a = true)
    (hn : env.onchainName a = none) (hs : env.onchainSym a = none) :
    fetchOnChainNameSymbol env st a
      = (⟨none, none⟩, cacheSet (logCall st (ocKey a)) (ocKey a) (.onchainV ⟨none, none⟩))
    ∧ fetchOnChainNameSymbol env
        (cacheSet (logCall st (ocKey a)) (ocKey a) (.onchainV ⟨none, none⟩)) a
      = (⟨none, none⟩,
         cacheSet (logCall st (ocKey a)) (ocKey a) (.onchainV ⟨none, none⟩)) := by
  constructor
  · simp [fetchOnChainNameSymbol, hmiss, hctor, hn, hs]
  · simp [fetchOnChainNameSymbol, St.find, cacheSet, assocFind, toOC]

/-- Witness for C10: a concrete address with both reads failing. -/
theorem onchain_failure_cached_witness :
    fetchOnChainNameSymbol envOcNull st0 "0xA"
      = (⟨none, none⟩, ⟨[("onchain:0xa", .onchainV ⟨none, none⟩)], ["onchain:0xa"]⟩)
    ∧ fetchOnChainNameSymbol envOcNull
        ⟨[("onchain:0xa", .onchainV ⟨none, none⟩)], ["onchain:0xa"]⟩ "0xA"
      = (⟨none, none⟩, ⟨[("onchain:0xa", .onchainV ⟨none, none⟩)], ["onchain:0xa"]⟩) :=
  onchain_failure_cached envOcNull st0 "0xA" (by decide) rfl rfl rfl

/-- **C1 counterexample**: the bulk adapter does NOT contain every failure
behind its own boundary: when the request rejects, or the payload is
unparseable, `fetchFromDefiLlama` throws past the adapter (it is the
orchestrator's catch, not the adapter, that absorbs it). -/
theorem bulk_adapter_throws :
    fetchFromDefiLlama envRej st0 "ethereum" ["0xa"]
      = .error ⟨[], ["llama:ethereum:0xa"]⟩
    ∧ fetchFromDefiLlama envBad st0 "ethereum" ["0xa"]
      = .error ⟨[], ["llama:ethereum:0xa"]⟩ :=
  ⟨rfl, rfl⟩

/-- **C1 (amended)**: the symbol-search and on-chain adapters absorb every
network behaviour (returning `null` resp. a null-field record); the bulk
adapter absorbs only a non-success response (empty mapping) and propagates
a rejection or unparseable payload, which the orchestrator catches,
proceeding with an empty mapping. -/
theorem adapter_error_containment (env : Env) (st : St) (s a slug : String)
    (addrs : List String) (ci : Option String) :
    (st.find (cgKey s) = none →
      (env.cg s = .reject ∨ env.cg s = .notOk ∨ env.cg s = .badJson) →
      fetchFromCoinGeckoBySymbol env st s = (none, logCall st (cgKey s)))
    ∧ (st.find (ocKey a) = none → env.ctorOk a = false →
      fetchOnChainNameSymbol env st a = (⟨none, none⟩, st))
    ∧ (st.find (ocKey a) = none → env.ctorOk a = true →
      (fetchOnChainNameSymbol env st a).1 = ⟨env.onchainName a, env.onchainSym a⟩)
    ∧ (st.find (llamaKey slug addrs) = none → env.llama slug addrs = .notOk →
      fetchFromDefiLlama env st slug addrs
        = .ok (⟨some []⟩, logCall st (llamaKey slug addrs)))
    ∧ (st.find (llamaKey slug addrs) = none →
      (env.llama slug addrs = .reject ∨ env.llama slug addrs = .badJson) →
      fetchFromDefiLlama env st slug addrs = .error (logCall st (llamaKey slug addrs)))
    ∧ (∀ st', fetchFromDefiLlama env st (resolveChainSlug ci) (addrs.map lowerStr)
        = .error st' →
      handleBatch env st addrs ci
        = resolveList env (resolveChainSlug ci) ⟨some []⟩ st' (addrs.map lowerStr)) := by
  refine ⟨fun hm hf => ?_, fun hm hc => ?_, fun hm hc => ?_, fun hm hf => ?_,
    fun hm hf => ?_, fun st' hf => ?_⟩
  · rcases hf with h | h | h <;> simp [fetchFromCoinGeckoBySymbol, hm, h]
  · simp [fetchOnChainNameSymbol, hm, hc]
  · simp [fetchOnChainNameSymbol, hm, hc]
  · simp [fetchFromDefiLlama, hm, hf]
  · rcases hf with h | h <;> simp [fetchFromDefiLlama, hm, h]
  · simp [handleBatch, hf]

/-- Witness for C1: each containment branch at concrete inputs. -/
theorem adapter_error_containment_witness :
    fetchFromCoinGeckoBySymbol envPlain st0 "TOK" = (none, ⟨[], ["cg:tok"]⟩)
    ∧ fetchOnChainNameSymbol envPlain st0 "0xa" = (⟨none, none⟩, st0)
    ∧ (fetchOnChainNameSymbol envOcNull st0 "0xa").1 = ⟨none, none⟩
    ∧ fetchFromDefiLlama envPlain st0 "ethereum" ["0xa"]
        = .ok (⟨some []⟩, ⟨[], ["llama:ethereum:0xa"]⟩)
    ∧ handleBatch envRej st0 ["0xA"] none
        = resolveList envRej "ethereum" ⟨some []⟩ ⟨[], ["llama:ethereum:0xa"]⟩ ["0xa"] :=
  ⟨(adapter_error_containment envPlain st0 "TOK" "0xa" "ethereum" ["0xa"] none).1
      (by decide) (Or.inr (Or.inl rfl)),
   (adapter_error_containment envPlain st0 "TOK" "0xa" "ethereum" ["0xa"] none).2.1
      (by decide) rfl,
   (adapter_error_containment envOcNull st0 "TOK" "0xa" "ethereum" ["0xa"] none).2.2.1
      (by decide) rfl,
   (adapter_error_containment envPlain st0 "TOK" "0xa" "ethereum" ["0xa"] none).2.2.2.1
      (by decide) rfl,
   (adapter_error_containment envRej st0 "TOK" "0xa" "ethereum" ["0xA"] none).2.2.2.2.2
      ⟨[], ["llama:ethereum:0xa"]⟩ rfl⟩

/-- **C6**: when every source yields no usable data for an address, the
emitted record is exactly `{ id: lowercased address, symbol: null,
name: null, image: null, contractAddress: normalized address }`; and a
single-address batch always returns exactly one record whose
`contractAddress` is the normalized (hence present) address. -/
theorem all_sources_empty_record (env : Env) (st : St) (slug : String)
    (llamaData : LlamaJson) (a : String) (ci : Option String) (addr1 : String)
    (h1 : truthy (seedTokenInfo llamaData slug a).name = false)
    (h2 : truthy (seedTokenInfo llamaData slug a).symbol = false)
    (h3 : truthy (seedTokenInfo llamaData slug a).logo = false)
    (h4 : truthy (seedTokenInfo llamaData slug a).logo_url = false)
    (h5 : truthy (fetchOnChainNameSymbol env st a).1.name = false)
    (h6 : truthy (fetchOnChainNameSymbol env st a).1.symbol = false) :
    (resolveOne env slug llamaData st a).1
      = ⟨lowerStr a, none, none, none, normalizeAddress env a⟩
    ∧ ∃ t : Token, (handleBatch env st [addr1] ci).1 = [t]
        ∧ t.contractAddress = normalizeAddress env (lowerStr addr1) := by
  constructor
  · simp [resolveOne, onchainFill, cgFill, formatTokenOutput, jsOr, jsOrN,
      h1, h2, h3, h4, h5, h6]
  · cases hF : fetchFromDefiLlama env st (resolveChainSlug ci) [lowerStr addr1] with
    | ok p =>
      obtain ⟨j, st1⟩ := p
      exact ⟨(resolveOne env (resolveChainSlug ci) j st1 (lowerStr addr1)).1,
        by simp [handleBatch, hF, resolveList],
        resolveOne_contractAddress env (resolveChainSlug ci) j st1 (lowerStr addr1)⟩
    | error st' =>
      exact ⟨(resolveOne env (resolveChainSlug ci) ⟨some []⟩ st' (lowerStr addr1)).1,
        by simp [handleBatch, hF, resolveList],
        resolveOne_contractAddress env (resolveChainSlug ci) ⟨some []⟩ st' (lowerStr addr1)⟩

/-- Witness for C6: all sources empty at a concrete address. -/
theorem all_sources_empty_record_witness :
    (resolveOne envPlain "ethereum" ⟨some []⟩ st0 "0xA").1
      = ⟨"0xa", none, none, none, "0xa"⟩
    ∧ ∃ t : Token, (handleBatch envPlain st0 ["0xB"] none).1 = [t]
        ∧ t.contractAddress = normalizeAddress envPlain (lowerStr "0xB") :=
  all_sources_empty_record envPlain st0 "ethereum" ⟨some []⟩ "0xA" none "0xB"
    (by decide) (by decide) (by decide) (by decide) (by decide) (by decide)

/-- The per-address loop emits one record per address. -/
theorem resolveList_length (env : Env) (slug : String) (j : LlamaJson)
    (st : St) (l : List String) :
    (resolveList env slug j st l).1.length = l.length := by
  induction l generalizing st with
  | nil => rfl
  | cons a rest ih => simp [resolveList, ih]

/-- The record at position `i` of the loop output normalizes the address at
position `i` of the loop input. -/
theorem resolveList_getElem? (env : Env) (slug : String) (j : LlamaJson)
    (st : St) (l : List String) (i : Nat) :
    ((resolveList env slug j st l).1[i]?).map Token.contractAddress
      = (l[i]?).map (normalizeAddress env) := by
  induction l generalizing st i with
  | nil => simp [resolveList]
  | cons a rest ih =>
    cases i with
    | zero => simp [resolveList, resolveOne_contractAddress]
    | succ n => simp [resolveList, ih]

/-- **C5**: for every input list and every behaviour of the three sources,
the batch output has exactly the input's length (duplicates giving one
record each), and the record at position `i` carries the normalized form of
the lowercased input address at position `i`. -/
theorem batch_preserves_shape (env : Env) (st : St) (addrs : List String)
    (ci : Option String) :
    (handleBatch env st addrs ci).1.length = addrs.length
    ∧ ∀ i : Nat, ((handleBatch env st addrs ci).1[i]?).map Token.contractAddress
        = (addrs[i]?).map (fun a => normalizeAddress env (lowerStr a)) := by
  cases hF : fetchFromDefiLlama env st (resolveChainSlug ci) (addrs.map lowerStr) with
  | ok p =>
    obtain ⟨j, st1⟩ := p
    refine ⟨by simp [handleBatch, hF, resolveList_length], fun i => ?_⟩
    have hb : (handleBatch env st addrs ci).1
        = (resolveList env (resolveChainSlug ci) j st1 (addrs.map lowerStr)).1 := by
      simp [handleBatch, hF]
    rw [hb, resolveList_getElem?]
    cases hi : addrs[i]? with
    | none => simp [List.getElem?_map, hi]
    | some a => simp [List.getElem?_map, hi]
  | error st1 =>
    refine ⟨by simp [handleBatch, hF, resolveList_length], fun i => ?_⟩
    have hb : (handleBatch env st addrs ci).1
        = (resolveList env (resolveChainSlug ci) ⟨some []⟩ st1 (addrs.map lowerStr)).1 := by
      simp [handleBatch, hF]
    rw [hb, resolveList_getElem?]
    cases hi : addrs[i]? with
    | none => simp [List.getElem?_map, hi]
    | some a => simp [List.getElem?_map, hi]

/-! ## Cache-idempotence development (C3) -/

theorem assocFind_cons_self {α : Type} (c : List (String × α)) (k : String) (v : α) :
    assocFind ((k, v) :: c) k = some v := by
  simp [assocFind]

theorem subCache_refl (c : List (String × CacheVal)) : SubCache c c :=
  fun _ _ h => h

theorem subCache_trans {c₁ c₂ c₃ : List (String × CacheVal)}
    (h₁ : SubCache c₁ c₂) (h₂ : SubCache c₂ c₃) : SubCache c₁ c₃ :=
  fun k v h => h₂ k v (h₁ k v h)

/-- Writing a fresh key preserves every existing entry. -/
theorem subCache_cons_of_miss (c : List (String × CacheVal)) (k : String)
    (v : CacheVal) (h : assocFind c k = none) : SubCache c ((k, v) :: c) := by
  intro k' v' h'
  by_cases hk : k = k'
  · subst hk; rw [h] at h'; exact Option.noConfusion h'
  · simpa [assocFind, hk] using h'

/-- The on-chain adapter only adds cache entries. -/
theorem fetchOC_mono (env : Env) (st : St) (a : String) :
    SubCache st.cache (fetchOnChainNameSymbol env st a).2.cache := by
  cases hm : assocFind st.cache (ocKey a) with
  | some v => simp [fetchOnChainNameSymbol, St.find, hm]; exact subCache_refl _
  | none =>
    cases hc : env.ctorOk a with
    | true =>
      simp [fetchOnChainNameSymbol, St.find, hm, hc, cacheSet, logCall]
      exact subCache_cons_of_miss _ _ _ hm
    | false =>
      simp [fetchOnChainNameSymbol, St.find, hm, hc]
      exact subCache_refl _

/-- The symbol-search adapter only adds cache entries. -/
theorem fetchCG_mono (env : Env) (st : St) (s : String) :
    SubCache st.cache (fetchFromCoinGeckoBySymbol env st s).2.cache := by
  cases hm : assocFind st.cache (cgKey s) with
  | some v => simp [fetchFromCoinGeckoBySymbol, St.find, hm]; exact subCache_refl _
  | none =>
    cases hf : env.cg s with
    | ok data =>
      cases hco : data.coins with
      | some coins =>
        cases hp : pickCoin coins s with
        | some m =>
          simp [fetchFromCoinGeckoBySymbol, St.find, hm, hf, hco, hp, cacheSet, logCall]
          exact subCache_cons_of_miss _ _ _ hm
        | none =>
          simp [fetchFromCoinGeckoBySymbol, St.find, hm, hf, hco, hp, logCall]
          exact subCache_refl _
      | none =>
        simp [fetchFromCoinGeckoBySymbol, St.find, hm, hf, hco, logCall]
        exact subCache_refl _
    | reject =>
      simp [fetchFromCoinGeckoBySymbol, St.find, hm, hf, logCall]
      exact subCache_refl _
    | notOk =>
      simp [fetchFromCoinGeckoBySymbol, St.find, hm, hf, logCall]
      exact subCache_refl _
    | badJson =>
      simp [fetchFromCoinGeckoBySymbol, St.find, hm, hf, logCall]
      exact subCache_refl _

/-- A successful bulk fetch only adds cache entries. -/
theorem fetchLlama_mono_ok (env : Env) (st : St) (slug : String)
    (addrs : List String) (j : LlamaJson) (st' : St)
    (h : fetchFromDefiLlama env st slug addrs = .ok (j, st')) :
    SubCache st.cache st'.cache := by
  cases hm : assocFind st.cache (llamaKey slug addrs) with
  | some v =>
    simp [fetchFromDefiLlama, St.find, hm] at h
    rw [← h.2]
    exact subCache_refl _
  | none =>
    cases hf : env.llama slug addrs with
    | ok j0 =>
      simp [fetchFromDefiLlama, St.find, hm, hf, cacheSet, logCall] at h
      rw [← h.2]
      exact subCache_cons_of_miss _ _ _ hm
    | reject => simp [fetchFromDefiLlama, St.find, hm, hf] at h
    | notOk =>
      simp [fetchFromDefiLlama, St.find, hm, hf, logCall] at h
      rw [← h.2]
      exact subCache_refl _
    | badJson => simp [fetchFromDefiLlama, St.find, hm, hf] at h

/-- The on-chain merge step only adds cache entries. -/
theorem onchainFill_mono (env : Env) (st : St) (n s : Option String) (a : String) :
    SubCache st.cache (onchainFill env st n s a).2.cache := by
  by_cases h : (!truthy n || !truthy s) = true
  · simp [onchainFill, h]; exact fetchOC_mono env st a
  · simp [onchainFill, h]; exact subCache_refl _

/-- The symbol-search merge step only adds cache entries. -/
theorem cgFill_mono (env : Env) (st : St) (n i s : Option String) :
    SubCache st.cache (cgFill env st n i s).2.cache := by
  by_cases h : (!truthy i && truthy s) = true
  · cases hr : (fetchFromCoinGeckoBySymbol env st (s.getD "")).1 with
    | some cgData =>
      simp [cgFill, h, hr]
      exact fetchCG_mono env st (s.getD "")
    | none =>
      simp [cgFill, h, hr]
      exact fetchCG_mono env st (s.getD "")
  · simp [cgFill, h]; exact subCache_refl _

/-- The per-address loop body only adds cache entries. -/
theorem resolveOne_mono (env : Env) (slug : String) (j : LlamaJson)
    (st : St) (a : String) :
    SubCache st.cache (resolveOne env slug j st a).2.cache := by
  have h1 := onchainFill_mono env st
    (jsOrN (jsOr (seedTokenInfo j slug a).name (seedTokenInfo j slug a).symbol))
    (jsOrN (seedTokenInfo j slug a).symbol) a
  have h2 := cgFill_mono env
    (onchainFill env st
      (jsOrN (jsOr (seedTokenInfo j slug a).name (seedTokenInfo j slug a).symbol))
      (jsOrN (seedTokenInfo j slug a).symbol) a).2
    (onchainFill env st
      (jsOrN (jsOr (seedTokenInfo j slug a).name (seedTokenInfo j slug a).symbol))
      (jsOrN (seedTokenInfo j slug a).symbol) a).1.1
    (jsOrN (jsOr (seedTokenInfo j slug a).logo (seedTokenInfo j slug a).logo_url))
    (onchainFill env st
      (jsOrN (jsOr (seedTokenInfo j slug a).name (seedTokenInfo j slug a).symbol))
      (jsOrN (seedTokenInfo j slug a).symbol) a).1.2
  exact subCache_trans h1 h2

/-- The per-address loop only adds cache entries. -/
theorem resolveList_mono (env : Env) (slug : String) (j : LlamaJson)
    (st : St) (l : List String) :
    SubCache st.cache (resolveList env slug j st l).2.cache := by
  induction l generalizing st with
  | nil => exact subCache_refl _
  | cons a rest ih =>
    exact subCache_trans (resolveOne_mono env slug j st a)
      (ih (resolveOne env slug j st a).2)

/-- Re-running the on-chain fetch against any state whose cache extends the
first run's final cache returns the first run's value and changes nothing. -/
theorem fetchOC_sim (env : Env) (st stf : St) (a : String)
    (hsub : SubCache st.cache stf.cache)
    (hsub2 : SubCache (fetchOnChainNameSymbol env st a).2.cache stf.cache)
    (hctor : env.ctorOk a = true) :
    fetchOnChainNameSymbol env stf a = ((fetchOnChainNameSymbol env st a).1, stf) := by
  cases hm : assocFind st.cache (ocKey a) with
  | some v =>
    have hf : assocFind stf.cache (ocKey a) = some v := hsub _ _ hm
    simp [fetchOnChainNameSymbol, St.find, hm, hf]
  | none =>
    have h2 := hsub2
    simp [fetchOnChainNameSymbol, St.find, hm, hctor, cacheSet, logCall] at h2
    have hf := h2 _ _ (assocFind_cons_self _ _ _)
    simp [fetchOnChainNameSymbol, St.find, hm, hctor, hf, toOC]

/-- Re-running the symbol search against any state whose cache extends the
first run's final cache returns the first run's value and changes nothing
(given that searches always find a match, so the first run cached one). -/
theorem fetchCG_sim (env : Env) (st stf : St) (s : String)
    (hsub : SubCache st.cache stf.cache)
    (hsub2 : SubCache (fetchFromCoinGeckoBySymbol env st s).2.cache stf.cache)
    (hcg : CgAlwaysMatches env) :
    fetchFromCoinGeckoBySymbol env stf s
      = ((fetchFromCoinGeckoBySymbol env st s).1, stf) := by
  cases hm : assocFind st.cache (cgKey s) with
  | some v =>
    have hf : assocFind stf.cache (cgKey s) = some v := hsub _ _ hm
    simp [fetchFromCoinGeckoBySymbol, St.find, hm, hf]
  | none =>
    obtain ⟨d, hd, c0, cs, hc⟩ := hcg s
    have h2 := hsub2
    simp [fetchFromCoinGeckoBySymbol, St.find, hm, hd, hc, pickCoin, cacheSet,
      logCall] at h2
    have hf := h2 _ _ (assocFind_cons_self _ _ _)
    simp [fetchFromCoinGeckoBySymbol, St.find, hm, hd, hc, pickCoin, hf, toCG]

/-- Re-running the bulk fetch against any state whose cache extends the
first run's final cache returns the first run's payload and changes nothing
(given that bulk fetches always parse, so the first run cached one). -/
theorem fetchLlama_sim (env : Env) (st stf : St) (slug : String)
    (addrs : List String) (j : LlamaJson) (st' : St)
    (hrun : fetchFromDefiLlama env st slug addrs = .ok (j, st'))
    (hsub : SubCache st.cache stf.cache)
    (hsub2 : SubCache st'.cache stf.cache)
    (hll : LlamaAlwaysParses env) :
    fetchFromDefiLlama env stf slug addrs = .ok (j, stf) := by
  cases hm : assocFind st.cache (llamaKey slug addrs) with
  | some v =>
    simp [fetchFromDefiLlama, St.find, hm] at hrun
    have hf : assocFind stf.cache (llamaKey slug addrs) = some v := hsub _ _ hm
    simp [fetchFromDefiLlama, St.find, hf, hrun.1]
  | none =>
    obtain ⟨j1, hj⟩ := hll slug addrs
    have hrun' := hrun
    simp [fetchFromDefiLlama, St.find, hm, hj, cacheSet, logCall] at hrun'
    rw [← hrun'.2] at hsub2
    have hf := hsub2 _ _ (assocFind_cons_self _ _ _)
    rw [hrun'.1] at hf
    simp [fetchFromDefiLlama, St.find, hf, toLlama]

/-- The on-chain merge step, re-run against an extending cache. -/
theorem onchainFill_sim (env : Env) (st stf : St) (n s : Option String)
    (a : String)
    (hsub : SubCache st.cache stf.cache)
    (hsub2 : SubCache (onchainFill env st n s a).2.cache stf.cache)
    (hoc : CtorAlwaysOk env) :
    onchainFill env stf n s a = ((onchainFill env st n s a).1, stf) := by
  by_cases h : (!truthy n || !truthy s) = true
  · have hsub2' : SubCache (fetchOnChainNameSymbol env st a).2.cache stf.cache := by
      simpa [onchainFill, h] using hsub2
    have hsim := fetchOC_sim env st stf a hsub hsub2' (hoc a)
    simp [onchainFill, h, hsim]
  · simp [onchainFill, h]

/-- The symbol-search merge step, re-run against an extending cache. -/
theorem cgFill_sim (env : Env) (st stf : St) (n i s : Option String)
    (hsub : SubCache st.cache stf.cache)
    (hsub2 : SubCache (cgFill env st n i s).2.cache stf.cache)
    (hcg : CgAlwaysMatches env) :
    cgFill env stf n i s = ((cgFill env st n i s).1, stf) := by
  by_cases h : (!truthy i && truthy s) = true
  · have hsub2' : SubCache
        (fetchFromCoinGeckoBySymbol env st (s.getD "")).2.cache stf.cache := by
      cases hr : (fetchFromCoinGeckoBySymbol env st (s.getD "")).1 with
      | some cgData => simpa [cgFill, h, hr] using hsub2
      | none => simpa [cgFill, h, hr] using hsub2
    have hsim := fetchCG_sim env st stf (s.getD "") hsub hsub2' hcg
    cases hr : (fetchFromCoinGeckoBySymbol env st (s.getD "")).1 with
    | some cgData => simp [cgFill, h, hsim, hr]
    | none => simp [cgFill, h, hsim, hr]
  · simp [cgFill, h]

/-- The whole loop body, re-run against an extending cache. -/
theorem resolveOne_sim (env : Env) (slug : String) (j : LlamaJson)
    (st stf : St) (a : String)
    (hsub : SubCache st.cache stf.cache)
    (hsub2 : SubCache (resolveOne env slug j st a).2.cache stf.cache)
    (hcg : CgAlwaysMatches env) (hoc : CtorAlwaysOk env) :
    resolveOne env slug j stf a = ((resolveOne env slug j st a).1, stf) := by
  have hsub2' : SubCache (cgFill env (onchainFill env st
      (jsOrN (jsOr (seedTokenInfo j slug a).name (seedTokenInfo j slug a).symbol))
      (jsOrN (seedTokenInfo j slug a).symbol) a).2
      (onchainFill env st
      (jsOrN (jsOr (seedTokenInfo j slug a).name (seedTokenInfo j slug a).symbol))
      (jsOrN (seedTokenInfo j slug a).symbol) a).1.1
      (jsOrN (jsOr (seedTokenInfo j slug a).logo (seedTokenInfo j slug a).logo_url))
      (onchainFill env st
      (jsOrN (jsOr (seedTokenInfo j slug a).name (seedTokenInfo j slug a).symbol))
      (jsOrN (seedTokenInfo j slug a).symbol) a).1.2).2.cache stf.cache := hsub2
  have hsubMid : SubCache (onchainFill env st
      (jsOrN (jsOr (seedTokenInfo j slug a).name (seedTokenInfo j slug a).symbol))
      (jsOrN (seedTokenInfo j slug a).symbol) a).2.cache stf.cache :=
    subCache_trans (cgFill_mono env _ _ _ _) hsub2'
  have hoSim := onchainFill_sim env st stf
      (jsOrN (jsOr (seedTokenInfo j slug a).name (seedTokenInfo j slug a).symbol))
      (jsOrN (seedTokenInfo j slug a).symbol) a hsub hsubMid hoc
  have hcSim := cgFill_sim env (onchainFill env st
      (jsOrN (jsOr (seedTokenInfo j slug a).name (seedTokenInfo j slug a).symbol))
      (jsOrN (seedTokenInfo j slug a).symbol) a).2 stf
      (onchainFill env st
      (jsOrN (jsOr (seedTokenInfo j slug a).name (seedTokenInfo j slug a).symbol))
      (jsOrN (seedTokenInfo j slug a).symbol) a).1.1
      (jsOrN (jsOr (seedTokenInfo j slug a).logo (seedTokenInfo j slug a).logo_url))
      (onchainFill env st
      (jsOrN (jsOr (seedTokenInfo j slug a).name (seedTokenInfo j slug a).symbol))
      (jsOrN (seedTokenInfo j slug a).symbol) a).1.2 hsubMid hsub2' hcg
  simp [resolveOne, hoSim, hcSim]

/-- The whole loop, re-run against an extending cache. -/
theorem resolveList_sim (env : Env) (slug : String) (j : LlamaJson)
    (l : List String) (st stf : St)
    (hsub : SubCache st.cache stf.cache)
    (hsub2 : SubCache (resolveList env slug j st l).2.cache stf.cache)
    (hcg : CgAlwaysMatches env) (hoc : CtorAlwaysOk env) :
    resolveList env slug j stf l = ((resolveList env slug j st l).1, stf) := by
  induction l generalizing st with
  | nil => simp [resolveList]
  | cons a rest ih =>
    have hsub2' : SubCache
        (resolveList env slug j (resolveOne env slug j st a).2 rest).2.cache
        stf.cache := hsub2
    have hsubP : SubCache (resolveOne env slug j st a).2.cache stf.cache :=
      subCache_trans (resolveList_mono env slug j _ rest) hsub2'
    have h1 := resolveOne_sim env slug j st stf a hsub hsubP hcg hoc
    have h2 := ih (resolveOne env slug j st a).2 hsubP hsub2'
    simp [resolveList, h1, h2]

theorem assocFind_cons_isSome {α : Type} (c : List (String × α)) (k k' : String)
    (v : α) (h : (assocFind c k').isSome = true) :
    (assocFind ((k, v) :: c) k').isSome = true := by
  by_cases hk : k = k' <;> simp [assocFind, hk, h]

/-- Logging a fetch and caching its result for a fresh key preserves the
fetched-implies-cached invariant and the no-duplicate-fetch invariant. -/
theorem goodSt_log_set (st : St) (k : String) (v : CacheVal)
    (hm : assocFind st.cache k = none) (hg : GoodSt st) :
    GoodSt (cacheSet (logCall st k) k v) := by
  obtain ⟨hnd, hin⟩ := hg
  have hk : k ∉ st.calls := by
    intro hmem
    have hsome := hin k hmem
    rw [hm] at hsome
    exact Bool.noConfusion hsome
  constructor
  · simp [cacheSet, logCall, List.nodup_append, hnd, hk]
  · intro k' hk'
    simp [cacheSet, logCall] at hk'
    rcases hk' with h | h
    · exact assocFind_cons_isSome _ _ _ _ (hin k' h)
    · subst h; simp [cacheSet, assocFind]

/-- The on-chain adapter preserves the cache/call-log invariants. -/
theorem goodSt_fetchOC (env : Env) (st : St) (a : String)
    (hoc : CtorAlwaysOk env) (hg : GoodSt st) :
    GoodSt (fetchOnChainNameSymbol env st a).2 := by
  cases hm : assocFind st.cache (ocKey a) with
  | some v => simpa [fetchOnChainNameSymbol, St.find, hm] using hg
  | none =>
    have h := goodSt_log_set st (ocKey a)
      (.onchainV ⟨env.onchainName a, env.onchainSym a⟩) hm hg
    simpa [fetchOnChainNameSymbol, St.find, hm, hoc a] using h

/-- The symbol-search adapter preserves the cache/call-log invariants. -/
theorem goodSt_fetchCG (env : Env) (st : St) (s : String)
    (hcg : CgAlwaysMatches env) (hg : GoodSt st) :
    GoodSt (fetchFromCoinGeckoBySymbol env st s).2 := by
  cases hm : assocFind st.cache (cgKey s) with
  | some v => simpa [fetchFromCoinGeckoBySymbol, St.find, hm] using hg
  | none =>
    obtain ⟨d, hd, c0, cs, hc⟩ := hcg s
    simpa [fetchFromCoinGeckoBySymbol, St.find, hm, hd, hc, pickCoin]
      using goodSt_log_set st (cgKey s) _ hm hg

/-- The on-chain merge step preserves the cache/call-log invariants. -/
theorem goodSt_onchainFill (env : Env) (st : St) (n s : Option String)
    (a : String) (hoc : CtorAlwaysOk env) (hg : GoodSt st) :
    GoodSt (onchainFill env st n s a).2 := by
  by_cases h : (!truthy n || !truthy s) = true
  · simp [onchainFill, h]
    exact goodSt_fetchOC env st a hoc hg
  · simpa [onchainFill, h] using hg

/-- The symbol-search merge step preserves the cache/call-log invariants. -/
theorem goodSt_cgFill (env : Env) (st : St) (n i s : Option String)
    (hcg : CgAlwaysMatches env) (hg : GoodSt st) :
    GoodSt (cgFill env st n i s).2 := by
  by_cases h : (!truthy i && truthy s) = true
  · cases hr : (fetchFromCoinGeckoBySymbol env st (s.getD "")).1 with
    | some cgData =>
      simp [cgFill, h, hr]
      exact goodSt_fetchCG env st (s.getD "") hcg hg
    | none =>
      simp [cgFill, h, hr]
      exact goodSt_fetchCG env st (s.getD "") hcg hg
  · simpa [cgFill, h] using hg

/-- The loop body preserves the cache/call-log invariants. -/
theorem goodSt_resolveOne (env : Env) (slug : String) (j : LlamaJson)
    (st : St) (a : String) (hcg : CgAlwaysMatches env) (hoc : CtorAlwaysOk env)
    (hg : GoodSt st) : GoodSt (resolveOne env slug j st a).2 := by
  simp [resolveOne]
  exact goodSt_cgFill env _ _ _ _ hcg (goodSt_onchainFill env st _ _ a hoc hg)

/-- The loop preserves the cache/call-log invariants. -/
theorem goodSt_resolveList (env : Env) (slug : String) (j : LlamaJson)
    (l : List String) (st : St) (hcg : CgAlwaysMatches env)
    (hoc : CtorAlwaysOk env) (hg : GoodSt st) :
    GoodSt (resolveList env slug j st l).2 := by
  induction l generalizing st with
  | nil => simpa [resolveList] using hg
  | cons a rest ih =>
    simp [resolveList]
    exact ih (resolveOne env slug j st a).2 (goodSt_resolveOne env slug j st a hcg hoc hg)

/-- **C3 counterexample**: with a bulk source that answers non-success, the
first run's failed bulk lookup is not cached, so re-issuing the identical
batch immediately re-fetches the same bulk source key: two network calls
for one unique source key across the two runs, refuting "exactly one
network call per unique source key". -/
theorem cache_idempotence_fails :
    (handleBatch envPlain st0 ["0xa"] none).2.calls = ["llama:ethereum:0xa"]
    ∧ (handleBatch envPlain (handleBatch envPlain st0 ["0xa"] none).2 ["0xa"] none).2.calls
      = ["llama:ethereum:0xa", "llama:ethereum:0xa"] := by
  constructor <;> rfl

/-- **C3 (amended)**: within the cache TTL, when every bulk fetch parses,
every symbol search finds a match, and every contract constructs (so every
first-run fetch caches its result), re-running the identical batch changes
nothing: the second run returns the first run's records and performs no
network call (the final state, call log included, is unchanged), and the
first run fetched each unique source key at most once.  (When a first-run
fetch fails or finds no match, its key is not cached and is re-fetched, as
the counterexample shows.) -/
theorem cache_idempotent (env : Env)
    (hll : LlamaAlwaysParses env) (hcg : CgAlwaysMatches env)
    (hoc : CtorAlwaysOk env) (addrs : List String) (ci : Option String) :
    handleBatch env (handleBatch env st0 addrs ci).2 addrs ci
      = ((handleBatch env st0 addrs ci).1, (handleBatch env st0 addrs ci).2)
    ∧ (handleBatch env st0 addrs ci).2.calls.Nodup := by
  obtain ⟨j0, hj⟩ := hll (resolveChainSlug ci) (addrs.map lowerStr)
  have hrun1 : fetchFromDefiLlama env st0 (resolveChainSlug ci) (addrs.map lowerStr)
      = .ok (j0, ⟨[(llamaKey (resolveChainSlug ci) (addrs.map lowerStr), .llamaV j0)],
                  [llamaKey (resolveChainSlug ci) (addrs.map lowerStr)]⟩) := by
    simp [fetchFromDefiLlama, St.find, st0, assocFind, hj, cacheSet, logCall]
  have hAgood : GoodSt ⟨[(llamaKey (resolveChainSlug ci) (addrs.map lowerStr), .llamaV j0)],
      [llamaKey (resolveChainSlug ci) (addrs.map lowerStr)]⟩ := by
    refine ⟨by simp, ?_⟩
    intro k' hk'
    simp at hk'
    subst hk'
    simp [assocFind]
  have hb1 : handleBatch env st0 addrs ci
      = resolveList env (resolveChainSlug ci) j0
          ⟨[(llamaKey (resolveChainSlug ci) (addrs.map lowerStr), .llamaV j0)],
           [llamaKey (resolveChainSlug ci) (addrs.map lowerStr)]⟩
          (addrs.map lowerStr) := by
    simp [handleBatch, hrun1]
  have hsubA1 := resolveList_mono env (resolveChainSlug ci) j0
      ⟨[(llamaKey (resolveChainSlug ci) (addrs.map lowerStr), .llamaV j0)],
       [llamaKey (resolveChainSlug ci) (addrs.map lowerStr)]⟩ (addrs.map lowerStr)
  have h1find : assocFind
      (resolveList env (resolveChainSlug ci) j0
        ⟨[(llamaKey (resolveChainSlug ci) (addrs.map lowerStr), .llamaV j0)],
         [llamaKey (resolveChainSlug ci) (addrs.map lowerStr)]⟩
        (addrs.map lowerStr)).2.cache
      (llamaKey (resolveChainSlug ci) (addrs.map lowerStr)) = some (.llamaV j0) :=
    hsubA1 _ _ (by simp [assocFind])
  have hrun2 : fetchFromDefiLlama env
      (resolveList env (resolveChainSlug ci) j0
        ⟨[(llamaKey (resolveChainSlug ci) (addrs.map lowerStr), .llamaV j0)],
         [llamaKey (resolveChainSlug ci) (addrs.map lowerStr)]⟩
        (addrs.map lowerStr)).2
      (resolveChainSlug ci) (addrs.map lowerStr)
      = .ok (j0, (resolveList env (resolveChainSlug ci) j0
        ⟨[(llamaKey (resolveChainSlug ci) (addrs.map lowerStr), .llamaV j0)],
         [llamaKey (resolveChainSlug ci) (addrs.map lowerStr)]⟩
        (addrs.map lowerStr)).2) := by
    simp [fetchFromDefiLlama, St.find, h1find, toLlama]
  have hsim := resolveList_sim env (resolveChainSlug ci) j0 (addrs.map lowerStr)
      ⟨[(llamaKey (resolveChainSlug ci) (addrs.map lowerStr), .llamaV j0)],
       [llamaKey (resolveChainSlug ci) (addrs.map lowerStr)]⟩
      (resolveList env (resolveChainSlug ci) j0
        ⟨[(llamaKey (resolveChainSlug ci) (addrs.map lowerStr), .llamaV j0)],
         [llamaKey (resolveChainSlug ci) (addrs.map lowerStr)]⟩
        (addrs.map lowerStr)).2
      hsubA1 (subCache_refl _) hcg hoc
  have hgood1 := goodSt_resolveList env (resolveChainSlug ci) j0 (addrs.map lowerStr)
      ⟨[(llamaKey (resolveChainSlug ci) (addrs.map lowerStr), .llamaV j0)],
       [llamaKey (resolveChainSlug ci) (addrs.map lowerStr)]⟩ hcg hoc hAgood
  constructor
  · rw [hb1]
    simp [handleBatch, hrun2, hsim]
  · rw [hb1]
    exact hgood1.1

/-- Witness for C3: a fully-successful world, one batch run twice. -/
theorem cache_idempotent_witness :
    handleBatch envOk (handleBatch envOk st0 ["0xA"] none).2 ["0xA"] none
      = ((handleBatch envOk st0 ["0xA"] none).1, (handleBatch envOk st0 ["0xA"] none).2)
    ∧ (handleBatch envOk st0 ["0xA"] none).2.calls.Nodup :=
  cache_idempotent envOk (fun _ _ => ⟨⟨some []⟩, rfl⟩)
    (fun _ => ⟨⟨some [cgCoinTok]⟩, rfl, cgCoinTok, [], rfl⟩)
    (fun _ => rfl) ["0xA"] none

end TokenInfo
